import Mathlib

/-!
Verification of the neural-network inference core of `madmom/ml/nn/__init__.py`.

The embedding models the Python values that flow through this module:
numpy arrays (shape plus flat data, numeric entries modelled as rationals),
Python scalars, tuples and lists.  Fallible Python operations return
`Except PyErr`.  The concrete layer implementations, numpy itself and the
generic processor framework (`ParallelProcessor`, `SequentialProcessor` from
`madmom.processors`) are external collaborators of this module; layers are
modelled as opaque callables, and the processor framework is modelled from
the spec where noted.
-/

namespace Madmom

/-- Python exceptions that the modelled operations can raise. -/
inductive PyErr where
  | indexError
  | typeError
  | valueError
  | attributeError
  | zeroDivisionError
deriving DecidableEq, Repr

/-- A numpy array: a shape and the flat row-major data, entries as rationals. -/
structure NDArray where
  shape : List Nat
  data : List ℚ
deriving DecidableEq, Repr

/-- Number of dimensions of an array (`ndarray.ndim`). -/
def NDArray.ndim (a : NDArray) : Nat := a.shape.length

/-- numpy `squeeze`: drop all axes of size 1; the flat data is unchanged. -/
def NDArray.squeeze (a : NDArray) : NDArray :=
  ⟨a.shape.filter (fun n => n ≠ 1), a.data⟩

/-- numpy `np.array(a, ndmin=2)` on an array of fewer than 2 dimensions:
prepend axes of size 1 until the array has 2 dimensions; data unchanged. -/
def NDArray.ndmin2 (a : NDArray) : NDArray :=
  ⟨List.replicate (2 - a.ndim) 1 ++ a.shape, a.data⟩

/-- A Python value as it occurs in this module: a numeric scalar, a numpy
array, a tuple, or a list. -/
inductive Val where
  | num : ℚ → Val
  | arr : NDArray → Val
  | tup : List Val → Val
  | list : List Val → Val

/-- Python `isinstance(v, tuple)`. -/
def Val.isTuple : Val → Bool
  | .tup _ => true
  | _ => false

/-- Whether the value is a numpy array (`isinstance(v, np.ndarray)`). -/
def Val.isArr : Val → Bool
  | .arr _ => true
  | _ => false

/-- Python iteration `iter(v)`: tuples and lists yield their elements; an
array of at least one dimension yields its rows (sub-arrays along the first
axis); scalars and 0-d arrays are not iterable (`TypeError`). -/
def pyIter : Val → Except PyErr (List Val)
  | .tup xs => .ok xs
  | .list xs => .ok xs
  | .arr a =>
    match a.shape with
    | [] => .error .typeError
    | n :: rest =>
      .ok ((List.range n).map fun i =>
        .arr ⟨rest, (a.data.drop (i * rest.prod)).take rest.prod⟩)
  | .num _ => .error .typeError

/-- Python/numpy addition as used by `sum`: scalar+scalar, scalar+array
(broadcast), and array+array.  Arrays combined here must have identical
shape; numpy's general broadcasting of unequal shapes is an external numpy
behaviour never exercised by this module's contracts (spec §4.1: every
input array in a combined group must have identical shape, otherwise the
operation fails), so unequal shapes are modelled as failure.  Adding a
tuple or list to a number is a `TypeError` (as in Python's `sum`). -/
def pyAdd : Val → Val → Except PyErr Val
  | .num a, .num b => .ok (.num (a + b))
  | .num a, .arr b => .ok (.arr ⟨b.shape, b.data.map (fun x => a + x)⟩)
  | .arr a, .num b => .ok (.arr ⟨a.shape, a.data.map (fun x => x + b)⟩)
  | .arr a, .arr b =>
    if a.shape = b.shape then
      .ok (.arr ⟨a.shape, List.zipWith (fun x y => x + y) a.data b.data⟩)
    else
      .error .valueError
  | _, _ => .error .typeError

/-- Python `sum(xs)`: fold addition over the list starting from the int 0. -/
def pySum (xs : List Val) : Except PyErr Val :=
  xs.foldlM pyAdd (.num 0)

/-- Python `v / n` for `n = len(pred)` a nonnegative int: scalar division by
zero raises `ZeroDivisionError`; an array is divided elementwise.  numpy
division of an array by the scalar 0 yields non-finite entries, which ℚ
cannot represent; it is modelled as failure and is unreachable from
`average_predictions`, whose divisor is the length of a non-empty list. -/
def pyDivLen : Val → Nat → Except PyErr Val
  | .num a, n => if n = 0 then .error .zeroDivisionError else .ok (.num (a / n))
  | .arr a, n =>
    if n = 0 then .error .valueError
    else .ok (.arr ⟨a.shape, a.data.map (fun x => x / n)⟩)
  | _, _ => .error .typeError

/-- The inner helper `avg(pred)` of `average_predictions`:
`sum(pred) / len(pred)`. -/
def avg (pred : List Val) : Except PyErr Val := do
  let s ← pySum pred
  pyDivLen s pred.length

/-- Length of Python `zip(*xss)`: the minimum of the lengths (zip truncates
at the shortest input; `zip()` of no iterables is empty). -/
def zipMinLen (xss : List (List Val)) : Nat :=
  match xss.map List.length with
  | [] => 0
  | n :: ns => ns.foldl min n

/-- Python `list(zip(*xss))` (after each argument has been turned into a
list of its elements): the i-th output is the list of all i-th elements,
truncated at the shortest input. -/
def zipTranspose (xss : List (List Val)) : List (List Val) :=
  (List.range (zipMinLen xss)).map fun i => xss.map fun l => l.getD i (.tup [])

/-- `average_predictions(predictions)` from `madmom/ml/nn/__init__.py`.
A singleton list is returned unchanged.  Otherwise, if the first element is
a tuple (multi-task output), the list of tuples is transposed with
`zip(*predictions)` and each slot is averaged with `avg`; otherwise the
whole list is averaged.  On the empty list the length-1 test fails and the
`isinstance(predictions[0], tuple)` test raises `IndexError`. -/
def average_predictions (predictions : List Val) : Except PyErr Val :=
  match predictions with
  | [] => .error .indexError
  | [p] => .ok p
  | p :: q :: rest =>
    if p.isTuple then do
      let iters ← (p :: q :: rest).mapM pyIter
      let avgs ← (zipTranspose iters).mapM avg
      pure (.tup avgs)
    else
      avg (p :: q :: rest)

/-- A layer collaborator (external to this module, spec §3): a callable
`layer(data, reset=reset)` plus a `reset()` action on its internal
recurrent state, whose type `S` is opaque to this core.  The calls modelled
here are those whose result is determined by the input and the reset flag
(spec §6: deterministic given identical state and input). -/
structure Layer (S : Type) where
  call : Val → Bool → Except PyErr Val
  resetState : S → S

/-- `NeuralNetwork`: owns the ordered list of layers. -/
structure NeuralNetwork (S : Type) where
  layers : List (Layer S)

/-- The layer loop of `NeuralNetwork.process`: feed the data through each
layer in list order, every call receiving the same `reset` flag. -/
def runLayers {S : Type} (layers : List (Layer S)) (data : Val) (reset : Bool) :
    Except PyErr Val :=
  layers.foldlM (fun d layer => layer.call d reset) data

/-- Input normalization of `NeuralNetwork.process`: an array of fewer than
2 dimensions is replaced by `np.array(data, ndmin=2)`; anything else is
passed through unchanged. -/
def normalizeInput : Val → Val
  | .arr a => if a.ndim < 2 then .arr a.ndmin2 else .arr a
  | v => v

/-- The `d.squeeze()` of the comprehension `[d.squeeze() for d in data]`:
the element must be an array (anything else has no `squeeze` attribute). -/
def squeezeOne : Val → Except PyErr Val
  | .arr a => .ok (.arr a.squeeze)
  | _ => .error .attributeError

/-- The whole comprehension `[d.squeeze() for d in data]`. -/
def squeezeElems (elems : List Val) : Except PyErr (List Val) :=
  elems.mapM squeezeOne

/-- The `try: return data.squeeze() except AttributeError:` tail of
`NeuralNetwork.process`: an array is squeezed; any non-array value has no
`squeeze` attribute, so the handler iterates it, squeezes each element and
returns the results as a tuple. -/
def applySqueeze : Val → Except PyErr Val
  | .arr a => .ok (.arr a.squeeze)
  | v => do
    let elems ← pyIter v
    let sq ← squeezeElems elems
    pure (.tup sq)

/-- `NeuralNetwork.process(data, reset=True)`: normalize the input, pipe it
through the layers, then squeeze the result (multi-task outputs become
tuples of squeezed arrays). -/
def NeuralNetwork.process {S : Type} (nn : NeuralNetwork S) (data : Val)
    (reset : Bool := true) : Except PyErr Val := do
  let out ← runLayers nn.layers (normalizeInput data) reset
  applySqueeze out

/-- `NeuralNetwork.reset()`: invoke `reset()` on every layer in order.  The
network's mutable state is the list of its layers' internal states. -/
def NeuralNetwork.reset {S : Type} (nn : NeuralNetwork S) (states : List S) :
    List S :=
  (nn.layers.zip states).map fun p => p.1.resetState p.2

/-- Modelled from the spec: the bounded parallel map facility
(`ParallelProcessor` of `madmom.processors`, not part of this module's
source) runs every member network on the same input independently and
returns the results in network order regardless of completion order,
propagating the first raised error (spec §5, §6). -/
def parallelProcess {S : Type} (networks : List (NeuralNetwork S)) (data : Val)
    (reset : Bool) : Except PyErr (List Val) :=
  networks.mapM fun nn => nn.process data reset

/-- Modelled from the spec: `NeuralNetworkEnsemble` holds the ordered member
networks and the optional combiner (`ensemble_fn`, default
`average_predictions`; `None` disables combination). -/
structure NeuralNetworkEnsemble (S : Type) where
  networks : List (NeuralNetwork S)
  ensemble_fn : Option (List Val → Except PyErr Val)

/-- Modelled from the spec: `NeuralNetworkEnsemble.process` (inherited from
`SequentialProcessor`, not part of this module's source) evaluates all
member networks on the input via the parallel map and feeds the ordered
prediction list to the combiner, or returns the raw list when the combiner
is disabled (spec §4.3). -/
def NeuralNetworkEnsemble.process {S : Type} (e : NeuralNetworkEnsemble S)
    (data : Val) (reset : Bool := true) : Except PyErr Val := do
  let preds ← parallelProcess e.networks data reset
  match e.ensemble_fn with
  | none => pure (.list preds)
  | some f => f preds

/-- Pointwise sum of a list of equal-length data vectors (spec language:
"sum of arrays", summed in list order). -/
def pointwiseSum : List (List ℚ) → List ℚ
  | [] => []
  | d :: ds => ds.foldl (fun acc e => List.zipWith (fun x y => x + y) acc e) d

/-- Spec language: the elementwise arithmetic mean of a list of same-shape
arrays, `(sum of arrays) / (count of arrays)`. -/
def elemMean (xs : List NDArray) : NDArray :=
  ⟨(xs.headD ⟨[], []⟩).shape,
   (pointwiseSum (xs.map NDArray.data)).map (fun x => x / xs.length)⟩

/-- The minimum tuple arity in a list of tuple predictions (the length to
which Python `zip` truncates). -/
def minArity (tups : List (List NDArray)) : Nat :=
  match tups.map List.length with
  | [] => 0
  | n :: ns => ns.foldl min n

/-! ### Helper lemmas -/

theorem ok_bind {α β : Type} (a : α) (f : α → Except PyErr β) :
    (Except.ok a >>= f) = f a := rfl

theorem error_bind {α β : Type} (e : PyErr) (f : α → Except PyErr β) :
    ((Except.error e : Except PyErr α) >>= f) = .error e := rfl

theorem mapM_eq_ok_map {α β : Type} (f : α → Except PyErr β) (g : α → β)
    (l : List α) (h : ∀ a ∈ l, f a = .ok (g a)) :
    l.mapM f = .ok (l.map g) := by
  induction l with
  | nil => rfl
  | cons a l ih =>
    rw [List.mapM_cons, h a (List.mem_cons_self a l),
      ih (fun b hb => h b (List.mem_cons_of_mem a hb))]
    rfl

theorem mapM_eq_ok_of_forall₂ {α β : Type} (f : α → Except PyErr β)
    {l : List α} {r : List β}
    (h : List.Forall₂ (fun a b => f a = .ok b) l r) :
    l.mapM f = .ok r := by
  induction h with
  | nil => rfl
  | cons h1 _ ih => rw [List.mapM_cons, h1, ih]; rfl

theorem foldl_min_le (ns : List Nat) (n : Nat) :
    ns.foldl min n ≤ n ∧ ∀ m ∈ ns, ns.foldl min n ≤ m := by
  induction ns generalizing n with
  | nil => exact ⟨le_refl n, by intro m hm; cases hm⟩
  | cons k ks ih =>
    simp only [List.foldl_cons]
    refine ⟨le_trans (ih (min n k)).1 (min_le_left n k), ?_⟩
    intro m hm
    rcases List.mem_cons.mp hm with rfl | hm'
    · exact le_trans (ih (min n m)).1 (min_le_right n m)
    · exact (ih (min n k)).2 m hm'

theorem foldl_min_const (ns : List Nat) (c : Nat) (h : ∀ m ∈ ns, m = c) :
    ns.foldl min c = c := by
  induction ns with
  | nil => rfl
  | cons k ks ih =>
    have hk : k = c := h k (List.mem_cons_self k ks)
    simp only [List.foldl_cons, hk, min_self]
    exact ih (fun m hm => h m (List.mem_cons_of_mem k hm))

theorem getD_map_eq {α β : Type} (f : α → β) (l : List α) (i : Nat) (d : α)
    (d' : β) (h : i < l.length) :
    (l.map f).getD i d' = f (l.getD i d) := by
  rw [List.getD_eq_getElem _ d' (by simpa using h), List.getD_eq_getElem _ d h,
    List.getElem_map]

theorem range_map_getD {α β : Type} (l : List α) (d : α) (f : α → β) :
    (List.range l.length).map (fun i => f (l.getD i d)) = l.map f := by
  apply List.ext_getElem (by simp)
  intro i h1 h2
  simp only [List.getElem_map, List.getElem_range]
  rw [List.getD_eq_getElem l d (by simpa using h2)]

theorem foldlM_pyAdd_arr (rest : List NDArray) (acc : NDArray)
    (h : ∀ m ∈ rest, m.shape = acc.shape) :
    List.foldlM pyAdd (Val.arr acc) (rest.map Val.arr) =
      .ok (.arr ⟨acc.shape,
        rest.foldl (fun d e => List.zipWith (fun x y => x + y) d e.data)
          acc.data⟩) := by
  induction rest generalizing acc with
  | nil => rfl
  | cons m rest ih =>
    have hm : m.shape = acc.shape := h m (List.mem_cons_self m rest)
    have hstep : pyAdd (.arr acc) (.arr m) =
        .ok (.arr ⟨acc.shape,
          List.zipWith (fun x y => x + y) acc.data m.data⟩) := by
      simp [pyAdd, hm]
    rw [List.map_cons, List.foldlM_cons, hstep, ok_bind]
    exact ih ⟨acc.shape, List.zipWith (fun x y => x + y) acc.data m.data⟩
      (fun m' hm' => h m' (List.mem_cons_of_mem m hm'))

theorem pySum_arrs (ms : List NDArray) (sh : List Nat) (hne : ms ≠ [])
    (hsh : ∀ m ∈ ms, m.shape = sh) :
    pySum (ms.map Val.arr) =
      .ok (.arr ⟨sh, pointwiseSum (ms.map NDArray.data)⟩) := by
  match ms with
  | [] => exact absurd rfl hne
  | m :: rest =>
    have hrest : ∀ m' ∈ rest, m'.shape = m.shape := fun m' hm' => by
      rw [hsh m' (List.mem_cons_of_mem m hm'),
        hsh m (List.mem_cons_self m rest)]
    have h0 : pyAdd (.num 0) (.arr m) =
        .ok (.arr ⟨m.shape, m.data.map (fun x => (0 : ℚ) + x)⟩) := rfl
    have hdata : m.data.map (fun x => (0 : ℚ) + x) = m.data := by simp
    unfold pySum
    rw [List.map_cons, List.foldlM_cons, h0, hdata, ok_bind,
      show (⟨m.shape, m.data⟩ : NDArray) = m from rfl,
      foldlM_pyAdd_arr rest m hrest, hsh m (List.mem_cons_self m rest),
      List.map_cons]
    show Except.ok (Val.arr ⟨sh, List.foldl
        (fun d e => List.zipWith (fun x y => x + y) d e.data) m.data rest⟩) =
      Except.ok (Val.arr ⟨sh, List.foldl
        (fun acc e => List.zipWith (fun x y => x + y) acc e) m.data
        (List.map NDArray.data rest)⟩)
    rw [List.foldl_map]

theorem avg_arrs (ms : List NDArray) (sh : List Nat) (hne : ms ≠ [])
    (hsh : ∀ m ∈ ms, m.shape = sh) :
    avg (ms.map Val.arr) =
      .ok (.arr ⟨sh, (pointwiseSum (ms.map NDArray.data)).map
        (fun x => x / (ms.length : ℚ))⟩) := by
  unfold avg
  rw [pySum_arrs ms sh hne hsh, ok_bind]
  have hlen : (ms.map Val.arr).length = ms.length := List.length_map ms Val.arr
  have hne' : ms.length ≠ 0 := fun h => hne (List.length_eq_zero.mp h)
  rw [hlen]
  simp only [pyDivLen]
  rw [if_neg hne']

theorem elemMean_eq (ms : List NDArray) (sh : List Nat) (hne : ms ≠ [])
    (hsh : ∀ m ∈ ms, m.shape = sh) :
    elemMean ms =
      ⟨sh, (pointwiseSum (ms.map NDArray.data)).map
        (fun x => x / (ms.length : ℚ))⟩ := by
  match ms with
  | [] => exact absurd rfl hne
  | m :: rest =>
    unfold elemMean
    rw [show (m :: rest).headD ⟨[], []⟩ = m from rfl,
      hsh m (List.mem_cons_self m rest)]

theorem mapM_map {α β γ : Type} (f : α → β) (g : β → Except PyErr γ)
    (l : List α) :
    (l.map f).mapM g = l.mapM (fun a => g (f a)) := by
  induction l with
  | nil => rfl
  | cons a l ih => rw [List.map_cons, List.mapM_cons, List.mapM_cons, ih]

theorem zipMinLen_map_tup (tups : List (List NDArray)) :
    zipMinLen (tups.map fun t => t.map Val.arr) = minArity tups := by
  unfold zipMinLen minArity
  rw [List.map_map]
  have h : (List.length ∘ fun t : List NDArray => t.map Val.arr) =
      List.length := by
    funext t
    simp
  rw [h]

theorem minArity_le (tups : List (List NDArray)) (t : List NDArray)
    (ht : t ∈ tups) : minArity tups ≤ t.length := by
  match tups with
  | [] => cases ht
  | t1 :: ts =>
    show (ts.map List.length).foldl min t1.length ≤ t.length
    have h := foldl_min_le (ts.map List.length) t1.length
    rcases List.mem_cons.mp ht with rfl | ht'
    · exact h.1
    · exact h.2 t.length (List.mem_map_of_mem List.length ht')

theorem minArity_const (tups : List (List NDArray)) (K : Nat)
    (hne : tups ≠ []) (hK : ∀ t ∈ tups, t.length = K) :
    minArity tups = K := by
  match tups with
  | [] => exact absurd rfl hne
  | t1 :: ts =>
    show (ts.map List.length).foldl min t1.length = K
    rw [hK t1 (List.mem_cons_self t1 ts)]
    refine foldl_min_const _ K ?_
    intro m hm
    rcases List.mem_map.mp hm with ⟨t, ht, rfl⟩
    exact hK t (List.mem_cons_of_mem t1 ht)

theorem mapM_pyIter_tups (tups : List (List NDArray)) :
    (tups.map fun t => Val.tup (t.map Val.arr)).mapM pyIter =
      .ok (tups.map fun t => t.map Val.arr) := by
  rw [mapM_map]
  exact mapM_eq_ok_map _ (fun t => t.map Val.arr) tups (fun t _ => rfl)

theorem average_predictions_tup_list (preds : List Val) (p q : Val)
    (rest : List Val) (hpre : preds = p :: q :: rest)
    (hp : p.isTuple = true) :
    average_predictions preds =
      (do
        let iters ← preds.mapM pyIter
        let avgs ← (zipTranspose iters).mapM avg
        pure (.tup avgs) : Except PyErr Val) := by
  subst hpre
  simp only [average_predictions]
  rw [if_pos hp]

/-- The common argument for the tuple branch of `average_predictions`: for
N ≥ 2 tuple predictions whose columns (up to the minimum arity, where `zip`
truncates) have pairwise equal shapes, the result is the tuple of the
columnwise elementwise means. -/
theorem average_predictions_tup_aux (tups : List (List NDArray))
    (hlen : 2 ≤ tups.length)
    (hsh : ∀ i, i < minArity tups → ∀ t ∈ tups, ∀ t' ∈ tups,
      (t.getD i ⟨[], []⟩).shape = (t'.getD i ⟨[], []⟩).shape) :
    average_predictions (tups.map fun t => Val.tup (t.map Val.arr)) =
      .ok (.tup ((List.range (minArity tups)).map fun i =>
        .arr (elemMean (tups.map fun t => t.getD i ⟨[], []⟩)))) := by
  obtain ⟨t1, t2, ts, rfl⟩ : ∃ a b r, tups = a :: b :: r := by
    cases tups with
    | nil =>
      rw [List.length_nil] at hlen
      omega
    | cons a tl =>
      cases tl with
      | nil =>
        rw [List.length_cons, List.length_nil] at hlen
        omega
      | cons b r => exact ⟨a, b, r, rfl⟩
  rw [average_predictions_tup_list
      ((t1 :: t2 :: ts).map fun t => Val.tup (t.map Val.arr))
      (Val.tup (t1.map Val.arr)) (Val.tup (t2.map Val.arr))
      (ts.map fun t => Val.tup (t.map Val.arr))
      (by rw [List.map_cons, List.map_cons]) rfl,
    mapM_pyIter_tups, ok_bind]
  unfold zipTranspose
  rw [zipMinLen_map_tup, mapM_map]
  have hmap : List.mapM
      (fun i => avg (((t1 :: t2 :: ts).map fun t => t.map Val.arr).map
        fun l => l.getD i (Val.tup [])))
      (List.range (minArity (t1 :: t2 :: ts))) =
      .ok ((List.range (minArity (t1 :: t2 :: ts))).map fun i =>
        .arr (elemMean ((t1 :: t2 :: ts).map fun t => t.getD i ⟨[], []⟩))) := by
    apply mapM_eq_ok_map
    intro i hi
    have hi' : i < minArity (t1 :: t2 :: ts) := List.mem_range.mp hi
    have hslot : ((t1 :: t2 :: ts).map fun t => t.map Val.arr).map
        (fun l => l.getD i (Val.tup [])) =
        ((t1 :: t2 :: ts).map fun t => t.getD i ⟨[], []⟩).map Val.arr := by
      rw [List.map_map, List.map_map]
      apply List.map_congr_left
      intro t ht
      show (t.map Val.arr).getD i (Val.tup []) = Val.arr (t.getD i ⟨[], []⟩)
      exact getD_map_eq Val.arr t i ⟨[], []⟩ (Val.tup [])
        (lt_of_lt_of_le hi' (minArity_le _ t ht))
    have hcolsh : ∀ m ∈ (t1 :: t2 :: ts).map (fun t => t.getD i ⟨[], []⟩),
        m.shape = (t1.getD i ⟨[], []⟩).shape := by
      intro m hm
      rcases List.mem_map.mp hm with ⟨t, ht, rfl⟩
      exact hsh i hi' t ht t1 (List.mem_cons_self t1 (t2 :: ts))
    rw [hslot, avg_arrs _ _ (by simp) hcolsh, elemMean_eq _ _ (by simp) hcolsh]
  rw [hmap]
  rfl

/-- Claim C5: for every list of exactly one prediction, `average_predictions`
returns that element unchanged, whatever its type (identity law). -/
theorem average_predictions_singleton (p : Val) :
    average_predictions [p] = .ok p := rfl

/-- Claim C9: on the empty prediction list, `average_predictions` raises an
error (the access `predictions[0]` for the tuple test fails with
`IndexError`); it never returns a value. -/
theorem average_predictions_empty :
    average_predictions [] = .error .indexError := rfl

/-- Claim C2: for every list of N ≥ 2 same-shape single-array (non-tuple)
predictions, `average_predictions` returns the elementwise arithmetic mean
of the arrays, i.e. (sum of arrays) / N. -/
theorem average_predictions_arrays (ms : List NDArray) (sh : List Nat)
    (hlen : 2 ≤ ms.length) (hsh : ∀ m ∈ ms, m.shape = sh) :
    average_predictions (ms.map Val.arr) = .ok (.arr (elemMean ms)) := by
  match ms with
  | [] => simp at hlen
  | [m] => simp at hlen
  | m1 :: m2 :: rest =>
    rw [elemMean_eq (m1 :: m2 :: rest) sh (by simp) hsh]
    have : average_predictions ((m1 :: m2 :: rest).map Val.arr) =
        avg ((m1 :: m2 :: rest).map Val.arr) := by
      simp only [List.map_cons]
      rfl
    rw [this, avg_arrs (m1 :: m2 :: rest) sh (by simp) hsh]

theorem colshape_of_uniform (tups : List (List NDArray)) (sh : List Nat)
    (hsh : ∀ t ∈ tups, ∀ m ∈ t, m.shape = sh) :
    ∀ i, i < minArity tups → ∀ t ∈ tups, ∀ t' ∈ tups,
      (t.getD i ⟨[], []⟩).shape = (t'.getD i ⟨[], []⟩).shape := by
  intro i hi t ht t' ht'
  have hit : i < t.length := lt_of_lt_of_le hi (minArity_le tups t ht)
  have hit' : i < t'.length := lt_of_lt_of_le hi (minArity_le tups t' ht')
  have h1 : t.getD i ⟨[], []⟩ ∈ t := by
    rw [List.getD_eq_getElem t ⟨[], []⟩ hit]
    exact List.getElem_mem hit
  have h2 : t'.getD i ⟨[], []⟩ ∈ t' := by
    rw [List.getD_eq_getElem t' ⟨[], []⟩ hit']
    exact List.getElem_mem hit'
  rw [hsh t ht _ h1, hsh t' ht' _ h2]

/-- Claim C1: for every list of N ≥ 2 predictions, all of them tuples of the
same arity K of same-shape arrays, `average_predictions` returns a K-tuple
whose slot i is the elementwise arithmetic mean of slot i across the N
inputs, slot order and arity preserved (the tuple path is selected by
inspecting the first element, which the hypotheses make a tuple). -/
theorem average_predictions_tuples (tups : List (List NDArray)) (K : Nat)
    (sh : List Nat) (hlen : 2 ≤ tups.length)
    (hK : ∀ t ∈ tups, t.length = K)
    (hsh : ∀ t ∈ tups, ∀ m ∈ t, m.shape = sh) :
    average_predictions (tups.map fun t => Val.tup (t.map Val.arr)) =
      .ok (.tup ((List.range K).map fun i =>
        .arr (elemMean (tups.map fun t => t.getD i ⟨[], []⟩)))) := by
  have hne : tups ≠ [] := by
    intro h
    rw [h] at hlen
    exact absurd hlen (by decide)
  have hmin : minArity tups = K := minArity_const tups K hne hK
  have haux := average_predictions_tup_aux tups hlen
    (colshape_of_uniform tups sh hsh)
  rw [hmin] at haux
  exact haux

/-- Witness for C1: the spec example `[(1.0, 10.0), (3.0, 20.0)]` combines
to `(2.0, 15.0)` (here via the per-slot `elemMean`). -/
theorem average_predictions_tuples_witness :
    average_predictions [Val.tup [Val.arr ⟨[1], [1]⟩, Val.arr ⟨[1], [10]⟩],
        Val.tup [Val.arr ⟨[1], [3]⟩, Val.arr ⟨[1], [20]⟩]] =
      .ok (.tup ((List.range 2).map fun i =>
        .arr (elemMean
          (([[⟨[1], [1]⟩, ⟨[1], [10]⟩],
             [⟨[1], [3]⟩, ⟨[1], [20]⟩]] : List (List NDArray)).map
            fun t => t.getD i ⟨[], []⟩)))) :=
  average_predictions_tuples
    [[⟨[1], [1]⟩, ⟨[1], [10]⟩], [⟨[1], [3]⟩, ⟨[1], [20]⟩]] 2 [1]
    (by decide) (by decide) (by decide)

/-- Counterexample for claim C8 as stated: combining two tuple predictions
of differing arities (2 and 1) raises no error at combination time —
`zip(*predictions)` silently truncates to the shorter arity and a value is
returned. -/
theorem average_predictions_mixed_arity_cex :
    average_predictions [Val.tup [Val.arr ⟨[1], [1]⟩, Val.arr ⟨[1], [10]⟩],
        Val.tup [Val.arr ⟨[1], [3]⟩]] =
      .ok (.tup [Val.arr ⟨[1], [2]⟩]) := by
  have h := average_predictions_tup_aux
    [[⟨[1], [1]⟩, ⟨[1], [10]⟩], [⟨[1], [3]⟩]] (by decide) (by decide)
  simp only [List.map_cons, List.map_nil] at h
  rw [h]
  norm_num [minArity, elemMean, pointwiseSum, List.range_succ, List.range_zero]

/-- Claim C8 (amended): for N ≥ 2 tuple predictions of same-shape arrays
whose arities may differ, combining raises no error: `zip` truncates to the
minimum arity and the result is that shorter tuple of per-slot elementwise
means. -/
theorem average_predictions_mixed_arity (tups : List (List NDArray))
    (sh : List Nat) (hlen : 2 ≤ tups.length)
    (hsh : ∀ t ∈ tups, ∀ m ∈ t, m.shape = sh) :
    average_predictions (tups.map fun t => Val.tup (t.map Val.arr)) =
      .ok (.tup ((List.range (minArity tups)).map fun i =>
        .arr (elemMean (tups.map fun t => t.getD i ⟨[], []⟩)))) :=
  average_predictions_tup_aux tups hlen (colshape_of_uniform tups sh hsh)

/-- Witness for the amended C8: arities 2 and 1 combine to a 1-tuple. -/
theorem average_predictions_mixed_arity_witness :
    average_predictions [Val.tup [Val.arr ⟨[1], [1]⟩, Val.arr ⟨[1], [10]⟩],
        Val.tup [Val.arr ⟨[1], [3]⟩]] =
      .ok (.tup ((List.range
          (minArity [[⟨[1], [1]⟩, ⟨[1], [10]⟩], [⟨[1], [3]⟩]])).map
        fun i => .arr (elemMean
          (([[⟨[1], [1]⟩, ⟨[1], [10]⟩],
             [⟨[1], [3]⟩]] : List (List NDArray)).map
            fun t => t.getD i ⟨[], []⟩)))) :=
  average_predictions_mixed_arity
    [[⟨[1], [1]⟩, ⟨[1], [10]⟩], [⟨[1], [3]⟩]] [1] (by decide) (by decide)

/-- Witness for C2: the spec example `[1.0, 3.0]` combines to `2.0`. -/
theorem average_predictions_arrays_witness :
    average_predictions [Val.arr ⟨[1], [1]⟩, Val.arr ⟨[1], [3]⟩] =
      .ok (.arr (elemMean [⟨[1], [1]⟩, ⟨[1], [3]⟩])) :=
  average_predictions_arrays [⟨[1], [1]⟩, ⟨[1], [3]⟩] [1] (by decide) (by decide)

theorem squeezeElems_arrs (ms : List NDArray) :
    squeezeElems (ms.map Val.arr) = .ok (ms.map fun m => Val.arr m.squeeze) := by
  unfold squeezeElems
  rw [mapM_map]
  exact mapM_eq_ok_map _ (fun m => Val.arr m.squeeze) ms (fun m _ => rfl)

theorem squeezeElems_ok_shape (elems : List Val) (sq : List Val)
    (h : squeezeElems elems = .ok sq) :
    ∃ ms : List NDArray, sq = ms.map Val.arr := by
  induction elems generalizing sq with
  | nil =>
    cases h
    exact ⟨[], rfl⟩
  | cons d elems ih =>
    unfold squeezeElems at h
    rw [List.mapM_cons] at h
    cases d with
    | arr a =>
      rw [show squeezeOne (Val.arr a) = .ok (.arr a.squeeze) from rfl,
        ok_bind] at h
      cases hm : List.mapM squeezeOne elems with
      | error e => rw [hm, error_bind] at h; cases h
      | ok xs =>
        rw [hm, ok_bind] at h
        cases h
        obtain ⟨ms, rfl⟩ := ih xs hm
        exact ⟨a.squeeze :: ms, rfl⟩
    | num q => rw [show squeezeOne (Val.num q) = .error .attributeError
        from rfl, error_bind] at h; cases h
    | tup xs => rw [show squeezeOne (Val.tup xs) = .error .attributeError
        from rfl, error_bind] at h; cases h
    | list xs => rw [show squeezeOne (Val.list xs) = .error .attributeError
        from rfl, error_bind] at h; cases h

theorem process_ok_shape {S : Type} (nn : NeuralNetwork S) (data : Val)
    (reset : Bool) (v : Val) (h : nn.process data reset = .ok v) :
    (∃ a, v = .arr a) ∨ ∃ ms : List NDArray, v = .tup (ms.map Val.arr) := by
  unfold NeuralNetwork.process at h
  cases hr : runLayers nn.layers (normalizeInput data) reset with
  | error e => rw [hr, error_bind] at h; cases h
  | ok out =>
    rw [hr, ok_bind] at h
    cases out with
    | arr a =>
      rw [show applySqueeze (Val.arr a) = .ok (.arr a.squeeze) from rfl] at h
      cases h
      exact Or.inl ⟨a.squeeze, rfl⟩
    | num q =>
      rw [show applySqueeze (Val.num q) = .error .typeError from rfl] at h
      cases h
    | tup xs =>
      rw [show applySqueeze (Val.tup xs) =
        (squeezeElems xs >>= fun sq => pure (Val.tup sq)) from rfl] at h
      cases hs : squeezeElems xs with
      | error e => rw [hs, error_bind] at h; cases h
      | ok sq =>
        rw [hs, ok_bind,
          show (pure (Val.tup sq) : Except PyErr Val) = .ok (.tup sq)
            from rfl] at h
        cases h
        obtain ⟨ms, rfl⟩ := squeezeElems_ok_shape xs sq hs
        exact Or.inr ⟨ms, rfl⟩
    | list xs =>
      rw [show applySqueeze (Val.list xs) =
        (squeezeElems xs >>= fun sq => pure (Val.tup sq)) from rfl] at h
      cases hs : squeezeElems xs with
      | error e => rw [hs, error_bind] at h; cases h
      | ok sq =>
        rw [hs, ok_bind,
          show (pure (Val.tup sq) : Except PyErr Val) = .ok (.tup sq)
            from rfl] at h
        cases h
        obtain ⟨ms, rfl⟩ := squeezeElems_ok_shape xs sq hs
        exact Or.inr ⟨ms, rfl⟩

theorem foldl_zipWith_replicate (d : List ℚ) :
    ∀ (j : Nat) (c : ℚ),
      (List.replicate j d).foldl
        (fun acc e => List.zipWith (fun x y => x + y) acc e)
        (d.map (fun x => c * x)) =
      d.map (fun x => (c + j) * x)
  | 0, c => by
    rw [List.replicate_zero, List.foldl_nil]
    apply List.map_congr_left
    intro x _
    push_cast
    ring
  | j + 1, c => by
    rw [List.replicate_succ, List.foldl_cons]
    have hstep : List.zipWith (fun x y => x + y) (d.map (fun x => c * x)) d =
        d.map (fun x => (c + 1) * x) := by
      rw [List.zipWith_map_left, List.zipWith_same]
      apply List.map_congr_left
      intro x _
      ring
    rw [hstep, foldl_zipWith_replicate d j (c + 1)]
    apply List.map_congr_left
    intro x _
    push_cast
    ring

theorem pointwiseSum_replicate (j : Nat) (d : List ℚ) :
    pointwiseSum (List.replicate (j + 1) d) =
      d.map (fun x => ((j : ℚ) + 1) * x) := by
  rw [List.replicate_succ]
  show (List.replicate j d).foldl
      (fun acc e => List.zipWith (fun x y => x + y) acc e) d = _
  have h1 : d.map (fun x => (1 : ℚ) * x) = d :=
    List.map_id'' (fun x => one_mul x) d
  have h := foldl_zipWith_replicate d j 1
  rw [h1] at h
  rw [h]
  apply List.map_congr_left
  intro x _
  ring

theorem avg_replicate_arr (K : Nat) (hK : K ≠ 0) (a : NDArray) :
    avg (List.replicate K (Val.arr a)) = .ok (.arr a) := by
  obtain ⟨j, rfl⟩ : ∃ j, K = j + 1 := ⟨K - 1, by omega⟩
  rw [show List.replicate (j + 1) (Val.arr a) =
      (List.replicate (j + 1) a).map Val.arr from by rw [List.map_replicate],
    avg_arrs (List.replicate (j + 1) a) a.shape (by simp)
      (fun m hm => by rw [List.eq_of_mem_replicate hm]),
    List.map_replicate, List.length_replicate, pointwiseSum_replicate j a.data,
    List.map_map]
  have hdata : a.data.map ((fun x => x / ((j + 1 : Nat) : ℚ)) ∘
      fun x => ((j : ℚ) + 1) * x) = a.data := by
    have h1 : ∀ x ∈ a.data, ((fun x => x / ((j + 1 : Nat) : ℚ)) ∘
        fun x => ((j : ℚ) + 1) * x) x = x := by
      intro x _
      show ((j : ℚ) + 1) * x / ((j + 1 : Nat) : ℚ) = x
      push_cast
      exact mul_div_cancel_left₀ x (by positivity)
    rw [List.map_congr_left h1, List.map_id']
  rw [hdata]

theorem average_predictions_nontup_list (preds : List Val) (p q : Val)
    (rest : List Val) (hpre : preds = p :: q :: rest)
    (hp : p.isTuple = false) :
    average_predictions preds = avg preds := by
  subst hpre
  simp only [average_predictions, hp, Bool.false_eq_true, if_false]

theorem average_predictions_replicate (K : Nat) (hK : 1 ≤ K) (v : Val)
    (hv : (∃ a, v = .arr a) ∨ ∃ ms : List NDArray, v = .tup (ms.map Val.arr)) :
    average_predictions (List.replicate K v) = .ok v := by
  match K, hK with
  | 1, _ => rfl
  | (j + 2), _ =>
    rcases hv with ⟨a, rfl⟩ | ⟨ms, rfl⟩
    · rw [average_predictions_nontup_list _ (Val.arr a) (Val.arr a)
        (List.replicate j (Val.arr a))
        (by rw [List.replicate_succ, List.replicate_succ]) rfl]
      exact avg_replicate_arr (j + 2) (by omega) a
    · rw [average_predictions_tup_list _ (Val.tup (ms.map Val.arr))
        (Val.tup (ms.map Val.arr)) (List.replicate j (Val.tup (ms.map Val.arr)))
        (by rw [List.replicate_succ, List.replicate_succ]) rfl]
      have hIt : (List.replicate (j + 2) (Val.tup (ms.map Val.arr))).mapM
          pyIter = .ok (List.replicate (j + 2) (ms.map Val.arr)) := by
        rw [mapM_eq_ok_map pyIter (fun _ => ms.map Val.arr)
          (List.replicate (j + 2) (Val.tup (ms.map Val.arr)))
          (fun x hx => by rw [List.eq_of_mem_replicate hx]; rfl),
          List.map_replicate]
      rw [hIt, ok_bind]
      unfold zipTranspose
      have hzl : zipMinLen (List.replicate (j + 2) (ms.map Val.arr)) =
          ms.length := by
        unfold zipMinLen
        rw [List.map_replicate, List.replicate_succ]
        show (List.replicate (j + 1) (ms.map Val.arr).length).foldl min
            (ms.map Val.arr).length = ms.length
        rw [foldl_min_const _ _ (fun m hm => List.eq_of_mem_replicate hm),
          List.length_map]
      rw [hzl, mapM_map]
      have hmap : List.mapM (fun i => avg
          ((List.replicate (j + 2) (ms.map Val.arr)).map
            fun l => l.getD i (Val.tup []))) (List.range ms.length) =
          .ok ((List.range ms.length).map
            fun i => Val.arr (ms.getD i ⟨[], []⟩)) := by
        apply mapM_eq_ok_map
        intro i hi
        have hi' : i < ms.length := List.mem_range.mp hi
        have hslot : (List.replicate (j + 2) (ms.map Val.arr)).map
            (fun l => l.getD i (Val.tup [])) =
            List.replicate (j + 2) (Val.arr (ms.getD i ⟨[], []⟩)) := by
          rw [List.map_replicate, getD_map_eq Val.arr ms i ⟨[], []⟩
            (Val.tup []) hi']
        rw [hslot]
        exact avg_replicate_arr (j + 2) (by omega) (ms.getD i ⟨[], []⟩)
      rw [hmap, ok_bind, range_map_getD ms ⟨[], []⟩ Val.arr]
      rfl

/-- Claim C3: `NeuralNetwork.process` pipes the normalized input through the
layers in list order, each call receiving the same reset flag (the
`runLayers` pipeline); if the pipeline's final output is a single array,
the squeezed array is returned; if it is instead an ordered collection
(tuple or list) of arrays — the multi-task case, where squeezing the
collection itself is inapplicable — a tuple of the independently squeezed
elements is returned, order preserved; any other failure of the pipeline
propagates unchanged. -/
theorem process_output_cases {S : Type} (nn : NeuralNetwork S) (data : Val)
    (reset : Bool) :
    (∀ (l : Layer S) (ls : List (Layer S)) (d : Val),
        runLayers (l :: ls) d reset =
          (l.call d reset).bind (fun d' => runLayers ls d' reset))
    ∧ (∀ a : NDArray,
        runLayers nn.layers (normalizeInput data) reset = .ok (.arr a) →
        nn.process data reset = .ok (.arr a.squeeze))
    ∧ (∀ ms : List NDArray,
        (runLayers nn.layers (normalizeInput data) reset =
            .ok (.tup (ms.map Val.arr)) ∨
         runLayers nn.layers (normalizeInput data) reset =
            .ok (.list (ms.map Val.arr))) →
        nn.process data reset = .ok (.tup (ms.map fun m => Val.arr m.squeeze)))
    ∧ (∀ e : PyErr,
        runLayers nn.layers (normalizeInput data) reset = .error e →
        nn.process data reset = .error e) := by
  refine ⟨fun l ls d => rfl, ?_, ?_, ?_⟩
  · intro a h
    unfold NeuralNetwork.process
    rw [h, ok_bind]
    rfl
  · intro ms h
    unfold NeuralNetwork.process
    rcases h with h | h <;> rw [h, ok_bind]
    · show (Except.ok (ms.map Val.arr) >>= fun elems =>
        squeezeElems elems >>= fun sq => pure (Val.tup sq)) = _
      rw [ok_bind, squeezeElems_arrs, ok_bind]
      rfl
    · show (Except.ok (ms.map Val.arr) >>= fun elems =>
        squeezeElems elems >>= fun sq => pure (Val.tup sq)) = _
      rw [ok_bind, squeezeElems_arrs, ok_bind]
      rfl
  · intro e h
    unfold NeuralNetwork.process
    rw [h]
    rfl

/-- Witness for C3: the empty network on a 1-d array input; the pipeline
output is the normalized input array, and `process` returns it squeezed. -/
theorem process_output_cases_witness :
    (NeuralNetwork.mk ([] : List (Layer Unit))).process
        (Val.arr ⟨[2], [1, 2]⟩) true =
      .ok (.arr (NDArray.squeeze ⟨[1, 2], [1, 2]⟩)) :=
  (process_output_cases (NeuralNetwork.mk ([] : List (Layer Unit)))
    (Val.arr ⟨[2], [1, 2]⟩) true).2.1 ⟨[1, 2], [1, 2]⟩ rfl

/-- Claim C6: `NeuralNetwork.process` input normalization: an array input
with fewer than 2 dimensions is reshaped (size-1 axes prepended, data
unchanged) to exactly 2 dimensions; a non-array input is passed through
unchanged; and the normalized value is what is fed to the layer pipeline. -/
theorem process_normalizes_input :
    (∀ a : NDArray, a.ndim < 2 →
        normalizeInput (.arr a) = .arr a.ndmin2 ∧ a.ndmin2.ndim = 2 ∧
          a.ndmin2.data = a.data)
    ∧ (∀ v : Val, v.isArr = false → normalizeInput v = v)
    ∧ (∀ (S : Type) (nn : NeuralNetwork S) (data : Val) (reset : Bool),
        nn.process data reset =
          (runLayers nn.layers (normalizeInput data) reset).bind applySqueeze) := by
  refine ⟨?_, ?_, fun S nn data reset => rfl⟩
  · intro a ha
    refine ⟨by simp only [normalizeInput]; rw [if_pos ha], ?_, rfl⟩
    simp only [NDArray.ndmin2, NDArray.ndim, List.length_append,
      List.length_replicate] at ha ⊢
    omega
  · intro v hv
    cases v with
    | num q => rfl
    | arr a => simp [Val.isArr] at hv
    | tup xs => rfl
    | list xs => rfl

/-- Witness for C6: a 1-d array of length 3 is reshaped to 2 dimensions
with its data unchanged, and a scalar input is passed through unchanged. -/
theorem process_normalizes_input_witness :
    (normalizeInput (.arr ⟨[3], [1, 2, 3]⟩) =
        .arr (NDArray.ndmin2 ⟨[3], [1, 2, 3]⟩) ∧
      (NDArray.ndmin2 ⟨[3], [1, 2, 3]⟩).ndim = 2 ∧
      (NDArray.ndmin2 ⟨[3], [1, 2, 3]⟩).data = [1, 2, 3]) ∧
      normalizeInput (.num 5) = .num 5 :=
  ⟨process_normalizes_input.1 ⟨[3], [1, 2, 3]⟩ (by decide),
   process_normalizes_input.2.1 (.num 5) rfl⟩

/-- Claim C10: a `NeuralNetwork` with an empty layer list acts as the
identity modulo shape normalization: on an array input, `process` returns
the input after the at-least-2-dimensions reshape followed by squeeze (no
layer exists to be invoked), and `reset()` leaves the (empty) layer-state
list unchanged. -/
theorem process_empty_layers {S : Type} (a : NDArray) (reset : Bool) :
    (NeuralNetwork.mk ([] : List (Layer S))).process (.arr a) reset =
        .ok (.arr ((if a.ndim < 2 then a.ndmin2 else a).squeeze))
      ∧ (NeuralNetwork.mk ([] : List (Layer S))).reset [] = [] := by
  refine ⟨?_, rfl⟩
  by_cases h : a.ndim < 2 <;>
    simp only [NeuralNetwork.process, runLayers, normalizeInput, h,
      if_true, if_false, List.foldlM_nil] <;>
    rfl

/-- Claim C4 (ensemble machinery modelled from the spec): with the combiner
explicitly set to `None`, an ensemble returns the list of the per-network
results on the same input, with length the number of networks and in
network-supplied order (element i is network i's independent result). -/
theorem ensemble_none_returns_list {S : Type}
    (networks : List (NeuralNetwork S)) (data : Val) (reset : Bool)
    (results : List Val)
    (h : List.Forall₂ (fun nn r => nn.process data reset = .ok r)
      networks results) :
    (NeuralNetworkEnsemble.mk networks none).process data reset =
        .ok (.list results)
      ∧ results.length = networks.length
      ∧ ∀ (i : Nat) (h1 : i < networks.length) (h2 : i < results.length),
          (networks.get ⟨i, h1⟩).process data reset =
            .ok (results.get ⟨i, h2⟩) := by
  refine ⟨?_, h.length_eq.symm, ?_⟩
  · unfold NeuralNetworkEnsemble.process parallelProcess
    rw [mapM_eq_ok_of_forall₂ _ h]
    rfl
  · intro i h1 h2
    exact (List.forall₂_iff_get.mp h).2 i h1 h2

/-- Witness for C4: a two-member ensemble of empty networks with combiner
`None` returns the two (equal) per-network results as a list. -/
theorem ensemble_none_returns_list_witness :
    (NeuralNetworkEnsemble.mk
        [NeuralNetwork.mk ([] : List (Layer Unit)), NeuralNetwork.mk []]
        none).process (Val.arr ⟨[2], [1, 2]⟩) true =
      .ok (.list [.arr ⟨[2], [1, 2]⟩, .arr ⟨[2], [1, 2]⟩]) :=
  (ensemble_none_returns_list
    [NeuralNetwork.mk ([] : List (Layer Unit)), NeuralNetwork.mk []]
    (Val.arr ⟨[2], [1, 2]⟩) true [.arr ⟨[2], [1, 2]⟩, .arr ⟨[2], [1, 2]⟩]
    (List.Forall₂.cons rfl (List.Forall₂.cons rfl List.Forall₂.nil))).1

/-- Claim C7 (ensemble machinery modelled from the spec): for every K ≥ 1,
an ensemble of K identical networks with the default combiner
(`average_predictions`) returns exactly the same prediction as the single
member network alone on that input — averaging K copies of one value is a
no-op. -/
theorem ensemble_identical_networks {S : Type} (K : Nat) (hK : 1 ≤ K)
    (nn : NeuralNetwork S) (data : Val) (reset : Bool) :
    (NeuralNetworkEnsemble.mk (List.replicate K nn)
        (some average_predictions)).process data reset =
      nn.process data reset := by
  unfold NeuralNetworkEnsemble.process parallelProcess
  cases hp : nn.process data reset with
  | error e =>
    obtain ⟨j, rfl⟩ : ∃ j, K = j + 1 := ⟨K - 1, by omega⟩
    rw [List.replicate_succ, List.mapM_cons, hp, error_bind, error_bind]
  | ok v =>
    have hm : (List.replicate K nn).mapM (fun n => n.process data reset) =
        .ok (List.replicate K v) := by
      rw [mapM_eq_ok_map (fun n => n.process data reset) (fun _ => v)
          (List.replicate K nn)
          (fun n hn => by rw [List.eq_of_mem_replicate hn]; exact hp),
        List.map_replicate]
    rw [hm, ok_bind]
    exact average_predictions_replicate K hK v
      (process_ok_shape nn data reset v hp)

/-- Witness for C7: two copies of the empty network on a concrete 1-d array
input give the same result as a single empty network. -/
theorem ensemble_identical_networks_witness :
    1 ≤ 2 ∧
      (NeuralNetworkEnsemble.mk
          (List.replicate 2 (NeuralNetwork.mk ([] : List (Layer Unit))))
          (some average_predictions)).process (Val.arr ⟨[2], [1, 2]⟩) true =
        (NeuralNetwork.mk ([] : List (Layer Unit))).process
          (Val.arr ⟨[2], [1, 2]⟩) true :=
  ⟨by decide, ensemble_identical_networks 2 (by decide)
    (NeuralNetwork.mk []) (Val.arr ⟨[2], [1, 2]⟩) true⟩

end Madmom
